import Mathlib

/-!
# Windows plugin registrant (`windows/flutter/generated_plugin_registrant.cc`)

The translation unit defines one function, `RegisterPlugins(registry)`, a straight-line
sequence of eight statements of the form

    XRegisterWithRegistrar(registry->GetRegistrarForPlugin("X"));

The registry and the eight entry points are external.  They are modelled as an
environment acting on an abstract host state `W` and returning abstract handles `H`;
every external call is recorded in a trace.  In each statement the argument expression
(the registry lookup) is evaluated before the entry point is called, and statements run
in textual order.

Two environments are considered.  In `Env` every external call returns.  In
`MayThrow.Env` an external call may throw instead; `RegisterPlugins` catches nothing, so
the exception leaves it at that call.
-/

namespace PluginRegistrant

/-- One observable external call made by `RegisterPlugins`. A `lookup` records the name
passed to `registry->GetRegistrarForPlugin` together with the handle it returned; a
`register` records the entry-point symbol that was called and the handle passed to it. -/
inductive Event (H : Type) where
  | lookup (name : String) (returned : H)
  | register (symbol : String) (handle : H)
  deriving DecidableEq, Repr

/-- The external collaborators of the translation unit: the registry lookup
(`registry->GetRegistrarForPlugin(name)`), which returns a handle and may change the
host state, and the linked entry points, addressed by their symbol, which consume a
handle, return `void` and may change the host state. -/
structure Env (H W : Type) where
  lookup : String → W → H × W
  entry : String → H → W → W

/-- Execution state: the host state and the trace of external calls made so far. -/
structure Run (H W : Type) where
  world : W
  trace : List (Event H)

/-- Computations of the translation unit. -/
abbrev Exec (H W : Type) := StateM (Run H W)

/-- The expression `registry->GetRegistrarForPlugin(name)`. -/
def GetRegistrarForPlugin {H W : Type} (env : Env H W) (name : String) : Exec H W H :=
  fun s =>
    let r := env.lookup name s.world
    (r.1, { world := r.2, trace := s.trace ++ [Event.lookup name r.1] })

/-- A call `symbol(handle)` of an entry point. -/
def call {H W : Type} (env : Env H W) (symbol : String) (handle : H) : Exec H W Unit :=
  fun s =>
    ((), { world := env.entry symbol handle s.world,
           trace := s.trace ++ [Event.register symbol handle] })

/-- The function `RegisterPlugins` (source lines 18-35), statement by statement. -/
def RegisterPlugins {H W : Type} (env : Env H W) : Exec H W Unit := do
  call env "BatteryPlusWindowsPluginRegisterWithRegistrar"
      (← GetRegistrarForPlugin env "BatteryPlusWindowsPlugin")
  call env "CloudFirestorePluginCApiRegisterWithRegistrar"
      (← GetRegistrarForPlugin env "CloudFirestorePluginCApi")
  call env "FileSelectorWindowsRegisterWithRegistrar"
      (← GetRegistrarForPlugin env "FileSelectorWindows")
  call env "FirebaseAuthPluginCApiRegisterWithRegistrar"
      (← GetRegistrarForPlugin env "FirebaseAuthPluginCApi")
  call env "FirebaseCorePluginCApiRegisterWithRegistrar"
      (← GetRegistrarForPlugin env "FirebaseCorePluginCApi")
  call env "FirebaseStoragePluginCApiRegisterWithRegistrar"
      (← GetRegistrarForPlugin env "FirebaseStoragePluginCApi")
  call env "FlutterSecureStorageWindowsPluginRegisterWithRegistrar"
      (← GetRegistrarForPlugin env "FlutterSecureStorageWindowsPlugin")
  call env "PermissionHandlerWindowsPluginRegisterWithRegistrar"
      (← GetRegistrarForPlugin env "PermissionHandlerWindowsPlugin")

/-- The trace of one `RegisterPlugins` call started in host state `w`. -/
def traceOf {H W : Type} (env : Env H W) (w : W) : List (Event H) :=
  (RegisterPlugins env { world := w, trace := [] }).2.trace

/-- The host state after one `RegisterPlugins` call. -/
def worldOf {H W : Type} (env : Env H W) (w : W) : W :=
  (RegisterPlugins env { world := w, trace := [] }).2.world

/-- One statement of `RegisterPlugins`: the entry point called and the name looked up
in its argument expression. -/
structure Stmt where
  symbol : String
  name : String
  deriving DecidableEq, Repr

/-- The eight statements of `RegisterPlugins` in textual order (source lines 19-34). -/
def statements : List Stmt :=
  [ ⟨"BatteryPlusWindowsPluginRegisterWithRegistrar", "BatteryPlusWindowsPlugin"⟩,
    ⟨"CloudFirestorePluginCApiRegisterWithRegistrar", "CloudFirestorePluginCApi"⟩,
    ⟨"FileSelectorWindowsRegisterWithRegistrar", "FileSelectorWindows"⟩,
    ⟨"FirebaseAuthPluginCApiRegisterWithRegistrar", "FirebaseAuthPluginCApi"⟩,
    ⟨"FirebaseCorePluginCApiRegisterWithRegistrar", "FirebaseCorePluginCApi"⟩,
    ⟨"FirebaseStoragePluginCApiRegisterWithRegistrar", "FirebaseStoragePluginCApi"⟩,
    ⟨"FlutterSecureStorageWindowsPluginRegisterWithRegistrar",
      "FlutterSecureStorageWindowsPlugin"⟩,
    ⟨"PermissionHandlerWindowsPluginRegisterWithRegistrar",
      "PermissionHandlerWindowsPlugin"⟩ ]

/-- Executing one statement `symbol(registry->GetRegistrarForPlugin(name));`. -/
def execStmt {H W : Type} (env : Env H W) (c : Stmt) : Exec H W Unit := do
  call env c.symbol (← GetRegistrarForPlugin env c.name)

/-- Executing a list of statements in order. -/
def execStmts {H W : Type} (env : Env H W) : List Stmt → Exec H W Unit
  | [] => pure ()
  | c :: cs => do execStmt env c; execStmts env cs

/-- The events produced by executing the statements `cs` from host state `w`. -/
def eventsFrom {H W : Type} (env : Env H W) : List Stmt → W → List (Event H)
  | [], _ => []
  | c :: cs, w =>
    Event.lookup c.name (env.lookup c.name w).1 ::
      Event.register c.symbol (env.lookup c.name w).1 ::
        eventsFrom env cs (env.entry c.symbol (env.lookup c.name w).1 (env.lookup c.name w).2)

/-- The host state reached by executing the statements `cs` from host state `w`. -/
def runWorld {H W : Type} (env : Env H W) : List Stmt → W → W
  | [], w => w
  | c :: cs, w =>
    runWorld env cs (env.entry c.symbol (env.lookup c.name w).1 (env.lookup c.name w).2)

/-- The host state in which the `i`-th statement of `RegisterPlugins` (counted from 0)
starts, when the call started in host state `w`. -/
def worldBefore {H W : Type} (env : Env H W) (w : W) (i : Nat) : W :=
  runWorld env (statements.take i) w

/-- The lookup and the registration of each statement, paired with a given handle. -/
def interleave {H : Type} : List Stmt → List H → List (Event H)
  | c :: cs, h :: hs => Event.lookup c.name h :: Event.register c.symbol h :: interleave cs hs
  | _, _ => []

/-- An event with its handle forgotten. -/
def Event.erase {H : Type} : Event H → Event Unit
  | Event.lookup n _ => Event.lookup n ()
  | Event.register s _ => Event.register s ()

/-- Whether an event is a registry lookup. -/
def Event.isLookup {H : Type} : Event H → Bool
  | Event.lookup _ _ => true
  | Event.register _ _ => false

/-- Whether an event is a call of an entry point. -/
def Event.isRegister {H : Type} : Event H → Bool
  | Event.lookup _ _ => false
  | Event.register _ _ => true

/-- Whether an event is a registry lookup made with the name `P`. -/
def Event.isLookupOf {H : Type} (P : String) : Event H → Bool
  | Event.lookup n _ => n == P
  | Event.register _ _ => false

/-- Whether an event is a call of the entry point with symbol `sym`. -/
def Event.isRegisterOf {H : Type} (sym : String) : Event H → Bool
  | Event.lookup _ _ => false
  | Event.register s _ => s == sym

/-- The names looked up in a trace, in order. -/
def lookupNames {H : Type} : List (Event H) → List String
  | [] => []
  | Event.lookup n _ :: es => n :: lookupNames es
  | Event.register _ _ :: es => lookupNames es

/-- The entry-point symbols called in a trace, in order. -/
def registerSymbols {H : Type} : List (Event H) → List String
  | [] => []
  | Event.lookup _ _ :: es => registerSymbols es
  | Event.register s _ :: es => s :: registerSymbols es

/-- The bytes of a string literal as stored in the translation unit (UTF-8). -/
def utf8Bytes (s : String) : List Nat :=
  s.data.flatMap fun c => (String.utf8EncodeChar c).map UInt8.toNat

/-- Strict lexicographic order on byte sequences, bytes compared as unsigned numbers. -/
def bytesLt : List Nat → List Nat → Bool
  | [], [] => false
  | [], _ :: _ => true
  | _ :: _, [] => false
  | a :: as, b :: bs => a < b || (a == b && bytesLt as bs)

/-- Strict byte-wise lexicographic order on strings. -/
def strLt (a b : String) : Bool := bytesLt (utf8Bytes a) (utf8Bytes b)

/-- The `#include` directives of the plugin headers (source lines 9-16): directory and
header file stem. -/
def includes : List (String × String) :=
  [ ("battery_plus", "battery_plus_windows_plugin"),
    ("cloud_firestore", "cloud_firestore_plugin_c_api"),
    ("file_selector_windows", "file_selector_windows"),
    ("firebase_auth", "firebase_auth_plugin_c_api"),
    ("firebase_core", "firebase_core_plugin_c_api"),
    ("firebase_storage", "firebase_storage_plugin_c_api"),
    ("flutter_secure_storage_windows", "flutter_secure_storage_windows_plugin"),
    ("permission_handler_windows", "permission_handler_windows_plugin") ]

/-- Upper-camel-case reading of a snake-case character list; `up` tells whether the next
letter starts a word. -/
def upperCamelChars : Bool → List Char → List Char
  | _, [] => []
  | up, c :: cs =>
    if c = '_' then upperCamelChars true cs
    else (if up then c.toUpper else c) :: upperCamelChars false cs

/-- Upper-camel-case reading of a snake-case identifier. -/
def upperCamel (s : String) : String := ⟨upperCamelChars true s.data⟩

/-- Spec-side manifest: the names of the plugins declared in the dependency manifest,
as the specification lists them. -/
def specManifest : List String :=
  [ "BatteryPlusWindowsPlugin", "CloudFirestorePluginCApi", "FileSelectorWindows",
    "FirebaseAuthPluginCApi", "FirebaseCorePluginCApi", "FirebaseStoragePluginCApi",
    "FlutterSecureStorageWindowsPlugin", "PermissionHandlerWindowsPlugin" ]

/-- Spec-side naming of a plugin's registration entry point: the plugin's name followed
by `RegisterWithRegistrar`. -/
def entryPointOf (P : String) : String := P ++ "RegisterWithRegistrar"

/-- Spec-side enumeration of the capabilities listed in the specification's purpose
section. -/
inductive SpecCapability where
  | batteryStatus
  | cloudDatabase
  | filePicker
  | authentication
  | corePlatformServices
  | objectStorage
  | secureStorage
  | permissionHandling
  deriving DecidableEq, Repr

/-- Spec-side list of all capabilities, in the order the specification names them. -/
def SpecCapability.all : List SpecCapability :=
  [ SpecCapability.batteryStatus, SpecCapability.cloudDatabase, SpecCapability.filePicker,
    SpecCapability.authentication, SpecCapability.corePlatformServices,
    SpecCapability.objectStorage, SpecCapability.secureStorage,
    SpecCapability.permissionHandling ]

/-- Spec-side assignment of a plugin name to each capability. -/
def SpecCapability.plugin : SpecCapability → String
  | SpecCapability.batteryStatus => "BatteryPlusWindowsPlugin"
  | SpecCapability.cloudDatabase => "CloudFirestorePluginCApi"
  | SpecCapability.filePicker => "FileSelectorWindows"
  | SpecCapability.authentication => "FirebaseAuthPluginCApi"
  | SpecCapability.corePlatformServices => "FirebaseCorePluginCApi"
  | SpecCapability.objectStorage => "FirebaseStoragePluginCApi"
  | SpecCapability.secureStorage => "FlutterSecureStorageWindowsPlugin"
  | SpecCapability.permissionHandling => "PermissionHandlerWindowsPlugin"

/-- A sample environment with a stateful registry: the handle depends on the host
state, every lookup and every registration changes the host state. -/
def sampleEnv : Env Nat Nat :=
  { lookup := fun n w => (n.length + w, w + 1), entry := fun _ h w => w + h }

/-- A sample environment whose registry is a function of the name: every lookup of `n`
returns `n.length`, whatever the host state. -/
def sampleFunEnv : Env Nat Nat :=
  { lookup := fun n w => (n.length, w + 1), entry := fun _ h w => w + h }

/-- A sample environment whose registry returns a null handle for every name. -/
def sampleNullEnv : Env (Option Nat) Unit :=
  { lookup := fun _ w => (none, w), entry := fun _ _ w => w }

/-! ## External calls that may not return

The source has no `try`, no `catch` and no check of any kind, so an exception thrown by
the registry or by an entry point leaves `RegisterPlugins` at that call.  The model
below lets every external call either return or throw. -/

/-- An exception in flight: the external call did not return. -/
inductive Thrown where
  | exception
  deriving DecidableEq, Repr

namespace MayThrow

/-- The external collaborators, each call of which either returns or throws; in both
cases it may have changed the host state. -/
structure Env (H W : Type) where
  lookup : String → W → Except Thrown H × W
  entry : String → H → W → Except Thrown Unit × W

/-- Computations of the translation unit that an exception may leave early. -/
abbrev Exec (H W : Type) := ExceptT Thrown (StateM (Run H W))

/-- The expression `registry->GetRegistrarForPlugin(name)`: when the lookup returns, the
trace records the name and the returned handle; when it throws, the exception
propagates. -/
def GetRegistrarForPlugin {H W : Type} (env : Env H W) (name : String) : Exec H W H :=
  fun s =>
    match env.lookup name s.world with
    | (Except.ok h, v) => (Except.ok h, { world := v, trace := s.trace ++ [Event.lookup name h] })
    | (Except.error x, v) => (Except.error x, { world := v, trace := s.trace })

/-- A call `symbol(handle)` of an entry point: the trace records the call; when the entry
point throws, the exception propagates. -/
def call {H W : Type} (env : Env H W) (symbol : String) (handle : H) : Exec H W Unit :=
  fun s =>
    match env.entry symbol handle s.world with
    | (Except.ok _, v) =>
      (Except.ok (), { world := v, trace := s.trace ++ [Event.register symbol handle] })
    | (Except.error x, v) =>
      (Except.error x, { world := v, trace := s.trace ++ [Event.register symbol handle] })

/-- The function `RegisterPlugins` (source lines 18-35), statement by statement. -/
def RegisterPlugins {H W : Type} (env : Env H W) : Exec H W Unit := do
  call env "BatteryPlusWindowsPluginRegisterWithRegistrar"
      (← GetRegistrarForPlugin env "BatteryPlusWindowsPlugin")
  call env "CloudFirestorePluginCApiRegisterWithRegistrar"
      (← GetRegistrarForPlugin env "CloudFirestorePluginCApi")
  call env "FileSelectorWindowsRegisterWithRegistrar"
      (← GetRegistrarForPlugin env "FileSelectorWindows")
  call env "FirebaseAuthPluginCApiRegisterWithRegistrar"
      (← GetRegistrarForPlugin env "FirebaseAuthPluginCApi")
  call env "FirebaseCorePluginCApiRegisterWithRegistrar"
      (← GetRegistrarForPlugin env "FirebaseCorePluginCApi")
  call env "FirebaseStoragePluginCApiRegisterWithRegistrar"
      (← GetRegistrarForPlugin env "FirebaseStoragePluginCApi")
  call env "FlutterSecureStorageWindowsPluginRegisterWithRegistrar"
      (← GetRegistrarForPlugin env "FlutterSecureStorageWindowsPlugin")
  call env "PermissionHandlerWindowsPluginRegisterWithRegistrar"
      (← GetRegistrarForPlugin env "PermissionHandlerWindowsPlugin")

/-- The trace of one `RegisterPlugins` call started in host state `w`. -/
def traceOf {H W : Type} (env : Env H W) (w : W) : List (Event H) :=
  (RegisterPlugins env { world := w, trace := [] }).2.trace

/-- How one `RegisterPlugins` call started in host state `w` ends: `Except.ok ()` when it
returns, `Except.error` when an exception leaves it. -/
def resultOf {H W : Type} (env : Env H W) (w : W) : Except Thrown Unit :=
  (RegisterPlugins env { world := w, trace := [] }).1

/-- Executing one statement `symbol(registry->GetRegistrarForPlugin(name));`. -/
def execStmt {H W : Type} (env : Env H W) (c : Stmt) : Exec H W Unit := do
  call env c.symbol (← GetRegistrarForPlugin env c.name)

/-- Executing a list of statements in order. -/
def execStmts {H W : Type} (env : Env H W) : List Stmt → Exec H W Unit
  | [] => pure ()
  | c :: cs => do execStmt env c; execStmts env cs

/-- An environment whose calls all return, seen as one whose calls may throw. -/
def ofReturning {H W : Type} (env : PluginRegistrant.Env H W) : Env H W :=
  { lookup := fun n w => (Except.ok (env.lookup n w).1, (env.lookup n w).2),
    entry := fun s h w => (Except.ok (), env.entry s h w) }

end MayThrow

/-- The calls of the statements `cs` in order, handles forgotten. -/
def shapeOf : List Stmt → List (Event Unit)
  | [] => []
  | c :: cs => Event.lookup c.name () :: Event.register c.symbol () :: shapeOf cs

/-! ## Supporting lemmas -/

theorem RegisterPlugins_eq_execStmts {H W : Type} (env : Env H W) :
    RegisterPlugins env = execStmts env statements := by
  simp only [RegisterPlugins, execStmts, execStmt, statements, bind_assoc, bind_pure_unit]

theorem execStmts_run {H W : Type} (env : Env H W) (cs : List Stmt) (s : Run H W) :
    execStmts env cs s =
      ((), { world := runWorld env cs s.world, trace := s.trace ++ eventsFrom env cs s.world }) := by
  induction cs generalizing s with
  | nil => simp [execStmts, runWorld, eventsFrom, pure, StateT.pure]
  | cons c cs ih =>
    simp only [execStmts, execStmt, bind, StateT.bind, GetRegistrarForPlugin, call, ih,
      runWorld, eventsFrom]
    simp

theorem traceOf_eq {H W : Type} (env : Env H W) (w : W) :
    traceOf env w = eventsFrom env statements w := by
  simp [traceOf, RegisterPlugins_eq_execStmts, execStmts_run]

theorem worldOf_eq {H W : Type} (env : Env H W) (w : W) :
    worldOf env w = runWorld env statements w := by
  simp [worldOf, RegisterPlugins_eq_execStmts, execStmts_run]

theorem eventsFrom_interleave {H W : Type} (env : Env H W) (cs : List Stmt) (w : W) :
    ∃ hs : List H, hs.length = cs.length ∧ eventsFrom env cs w = interleave cs hs := by
  induction cs generalizing w with
  | nil => exact ⟨[], rfl, rfl⟩
  | cons c cs ih =>
    obtain ⟨hs, hlen, h⟩ :=
      ih (env.entry c.symbol (env.lookup c.name w).1 (env.lookup c.name w).2)
    exact ⟨(env.lookup c.name w).1 :: hs, by simp [hlen], by simp [eventsFrom, interleave, h]⟩

theorem eventsFrom_index {H W : Type} (env : Env H W) (cs : List Stmt) (w : W) (i : Nat)
    (c : Stmt) (hc : cs[i]? = some c) :
    (eventsFrom env cs w)[2 * i]? =
        some (Event.lookup c.name (env.lookup c.name (runWorld env (cs.take i) w)).1) ∧
      (eventsFrom env cs w)[2 * i + 1]? =
        some (Event.register c.symbol (env.lookup c.name (runWorld env (cs.take i) w)).1) := by
  induction cs generalizing w i with
  | nil => simp at hc
  | cons d ds ih =>
    cases i with
    | zero =>
      simp only [List.getElem?_cons_zero, Option.some.injEq] at hc
      subst hc
      simp [eventsFrom, runWorld]
    | succ k =>
      simp only [List.getElem?_cons_succ] at hc
      have h := ih (env.entry d.symbol (env.lookup d.name w).1 (env.lookup d.name w).2) k hc
      have e1 : 2 * (k + 1) = (2 * k + 1) + 1 := by ring
      rw [e1]
      simpa only [eventsFrom, List.getElem?_cons_succ, List.take_succ_cons, runWorld] using h

theorem traceOf_explicit {H W : Type} (env : Env H W) (w : W) :
    ∃ h1 h2 h3 h4 h5 h6 h7 h8 : H, traceOf env w =
      [ Event.lookup "BatteryPlusWindowsPlugin" h1,
        Event.register "BatteryPlusWindowsPluginRegisterWithRegistrar" h1,
        Event.lookup "CloudFirestorePluginCApi" h2,
        Event.register "CloudFirestorePluginCApiRegisterWithRegistrar" h2,
        Event.lookup "FileSelectorWindows" h3,
        Event.register "FileSelectorWindowsRegisterWithRegistrar" h3,
        Event.lookup "FirebaseAuthPluginCApi" h4,
        Event.register "FirebaseAuthPluginCApiRegisterWithRegistrar" h4,
        Event.lookup "FirebaseCorePluginCApi" h5,
        Event.register "FirebaseCorePluginCApiRegisterWithRegistrar" h5,
        Event.lookup "FirebaseStoragePluginCApi" h6,
        Event.register "FirebaseStoragePluginCApiRegisterWithRegistrar" h6,
        Event.lookup "FlutterSecureStorageWindowsPlugin" h7,
        Event.register "FlutterSecureStorageWindowsPluginRegisterWithRegistrar" h7,
        Event.lookup "PermissionHandlerWindowsPlugin" h8,
        Event.register "PermissionHandlerWindowsPluginRegisterWithRegistrar" h8 ] := by
  obtain ⟨hs, hlen, h⟩ := eventsFrom_interleave env statements w
  have hlen8 : hs.length = 8 := hlen
  rcases hs with _ | ⟨h1, hs⟩
  · simp at hlen8
  rcases hs with _ | ⟨h2, hs⟩
  · simp at hlen8
  rcases hs with _ | ⟨h3, hs⟩
  · simp at hlen8
  rcases hs with _ | ⟨h4, hs⟩
  · simp at hlen8
  rcases hs with _ | ⟨h5, hs⟩
  · simp at hlen8
  rcases hs with _ | ⟨h6, hs⟩
  · simp at hlen8
  rcases hs with _ | ⟨h7, hs⟩
  · simp at hlen8
  rcases hs with _ | ⟨h8, hs⟩
  · simp at hlen8
  rcases hs with _ | ⟨h9, hs⟩
  · exact ⟨h1, h2, h3, h4, h5, h6, h7, h8, by rw [traceOf_eq, h]; rfl⟩
  · simp at hlen8

theorem traceOf_erase {H W : Type} (env : Env H W) (w : W) :
    (traceOf env w).map Event.erase = interleave statements (statements.map fun _ => ()) := by
  obtain ⟨h1, h2, h3, h4, h5, h6, h7, h8, h⟩ := traceOf_explicit env w
  rw [h]
  rfl

theorem lookupNames_traceOf {H W : Type} (env : Env H W) (w : W) :
    lookupNames (traceOf env w) = statements.map Stmt.name := by
  obtain ⟨h1, h2, h3, h4, h5, h6, h7, h8, h⟩ := traceOf_explicit env w
  rw [h]
  rfl

theorem registerSymbols_traceOf {H W : Type} (env : Env H W) (w : W) :
    registerSymbols (traceOf env w) = statements.map Stmt.symbol := by
  obtain ⟨h1, h2, h3, h4, h5, h6, h7, h8, h⟩ := traceOf_explicit env w
  rw [h]
  rfl

theorem countP_erase {H : Type} (p : Event Unit → Bool) (q : Event H → Bool)
    (hpq : ∀ e, p e.erase = q e) (l : List (Event H)) :
    List.countP q l = List.countP p (l.map Event.erase) := by
  induction l with
  | nil => rfl
  | cons e es ih => simp [List.countP_cons, ih, hpq]

/-- Each header stem of the include list, read in upper camel case, is the name looked
up by the statement at the same position, and there are as many includes as
statements. -/
theorem includes_match_lookups {H W : Type} (env : Env H W) (w : W) :
    includes.map (fun d => upperCamel d.2) = lookupNames (traceOf env w) := by
  rw [lookupNames_traceOf]
  decide

theorem mem_interleave {H : Type} (cs : List Stmt) (hs : List H) (e : Event H)
    (he : e ∈ interleave cs hs) :
    ∃ c ∈ cs, ∃ h, e = Event.lookup c.name h ∨ e = Event.register c.symbol h := by
  induction cs generalizing hs with
  | nil => simp [interleave] at he
  | cons c cs ih =>
    cases hs with
    | nil => simp [interleave] at he
    | cons h hs =>
      simp only [interleave, List.mem_cons] at he
      rcases he with rfl | rfl | he
      · exact ⟨c, by simp, h, Or.inl rfl⟩
      · exact ⟨c, by simp, h, Or.inr rfl⟩
      · obtain ⟨d, hd, k, hk⟩ := ih hs he
        exact ⟨d, by simp [hd], k, hk⟩

theorem traceOf_mem {H W : Type} (env : Env H W) (w : W) (e : Event H)
    (he : e ∈ traceOf env w) :
    ∃ c ∈ statements, ∃ h, e = Event.lookup c.name h ∨ e = Event.register c.symbol h := by
  obtain ⟨hs, _, h⟩ := eventsFrom_interleave env statements w
  rw [traceOf_eq, h] at he
  exact mem_interleave statements hs e he

theorem statements_manifest :
    ∀ c ∈ statements, c.name ∈ specManifest ∧ c.symbol = entryPointOf c.name := by
  decide

theorem eventsFrom_of_fun {H W : Type} (env : Env H W) (g : String → H)
    (hg : ∀ n w, (env.lookup n w).1 = g n) (cs : List Stmt) (w : W) :
    eventsFrom env cs w =
      cs.flatMap fun c => [Event.lookup c.name (g c.name), Event.register c.symbol (g c.name)] := by
  induction cs generalizing w with
  | nil => rfl
  | cons c cs ih => simp [eventsFrom, hg, ih]

theorem append_right_cancel (a b s : String) (h : a ++ s = b ++ s) : a = b := by
  have hd : (a ++ s).data = (b ++ s).data := by rw [h]
  rw [String.data_append, String.data_append] at hd
  exact String.ext (List.append_cancel_right hd)

/-- With a registry that returns a null handle for every name, all eight lookups and all
eight registrations are still made, each entry point receiving the null handle. -/
theorem traceOf_sampleNullEnv :
    traceOf sampleNullEnv () =
      specManifest.flatMap fun P =>
        [Event.lookup P none, Event.register (entryPointOf P) none] := by
  decide

/-- The host state after `RegisterPlugins` in the sample environment: every lookup and
every registration has acted on it, in order. -/
theorem worldOf_sampleEnv : worldOf sampleEnv 0 = 6195 := by
  decide

theorem MayThrow.RegisterPlugins_eq_statements {H W : Type} (env : MayThrow.Env H W) :
    MayThrow.RegisterPlugins env = MayThrow.execStmts env statements := by
  simp only [MayThrow.RegisterPlugins, MayThrow.execStmts, MayThrow.execStmt, statements,
    bind_assoc, bind_pure_unit]

theorem MayThrow.execStmts_cons {H W : Type} (env : MayThrow.Env H W) (c : Stmt)
    (cs : List Stmt) (s : Run H W) :
    MayThrow.execStmts env (c :: cs) s =
      match env.lookup c.name s.world with
      | (Except.error x, v) => (Except.error x, { world := v, trace := s.trace })
      | (Except.ok h, v) =>
        match env.entry c.symbol h v with
        | (Except.error x, u) =>
          (Except.error x,
            { world := u, trace := s.trace ++ [Event.lookup c.name h, Event.register c.symbol h] })
        | (Except.ok _, u) =>
          MayThrow.execStmts env cs
            { world := u, trace := s.trace ++ [Event.lookup c.name h, Event.register c.symbol h] } := by
  simp only [MayThrow.execStmts, MayThrow.execStmt, bind, ExceptT.bind, ExceptT.mk,
    ExceptT.bindCont, StateT.bind, MayThrow.GetRegistrarForPlugin, MayThrow.call]
  rcases hl : env.lookup c.name s.world with ⟨_ | h, v⟩
  · simp [pure, StateT.pure]
  · rcases he : env.entry c.symbol h v with ⟨_ | _, u⟩
    · simp [MayThrow.call, he, pure, StateT.pure]
    · simp [MayThrow.call, he]


theorem MayThrow.execStmts_lookup_throws {H W : Type} (env : MayThrow.Env H W) (c : Stmt)
    (cs : List Stmt) (s : Run H W) (x : Thrown) (v : W)
    (hl : env.lookup c.name s.world = (Except.error x, v)) :
    MayThrow.execStmts env (c :: cs) s = (Except.error x, { world := v, trace := s.trace }) := by
  rw [MayThrow.execStmts_cons, hl]

theorem MayThrow.execStmts_entry_throws {H W : Type} (env : MayThrow.Env H W) (c : Stmt)
    (cs : List Stmt) (s : Run H W) (h : H) (v : W) (x : Thrown) (u : W)
    (hl : env.lookup c.name s.world = (Except.ok h, v))
    (he : env.entry c.symbol h v = (Except.error x, u)) :
    MayThrow.execStmts env (c :: cs) s =
      (Except.error x,
        { world := u, trace := s.trace ++ [Event.lookup c.name h, Event.register c.symbol h] }) := by
  rw [MayThrow.execStmts_cons, hl]
  simp only [he]

theorem MayThrow.execStmts_returns {H W : Type} (env : MayThrow.Env H W) (c : Stmt)
    (cs : List Stmt) (s : Run H W) (h : H) (v : W) (a : Unit) (u : W)
    (hl : env.lookup c.name s.world = (Except.ok h, v))
    (he : env.entry c.symbol h v = (Except.ok a, u)) :
    MayThrow.execStmts env (c :: cs) s =
      MayThrow.execStmts env cs
        { world := u, trace := s.trace ++ [Event.lookup c.name h, Event.register c.symbol h] } := by
  rw [MayThrow.execStmts_cons, hl]
  simp only [he]

theorem MayThrow.execStmts_shape {H W : Type} (env : MayThrow.Env H W) (cs : List Stmt)
    (s : Run H W) :
    (∃ k, (MayThrow.execStmts env cs s).2.trace.map Event.erase =
        s.trace.map Event.erase ++ (shapeOf cs).take k) ∧
      ((MayThrow.execStmts env cs s).1 = Except.ok () →
        (MayThrow.execStmts env cs s).2.trace.map Event.erase =
          s.trace.map Event.erase ++ shapeOf cs) := by
  induction cs generalizing s with
  | nil =>
    refine ⟨⟨0, ?_⟩, fun _ => ?_⟩ <;>
      simp [MayThrow.execStmts, pure, ExceptT.pure, ExceptT.mk, StateT.pure, shapeOf]
  | cons c cs ih =>
    rcases hl : env.lookup c.name s.world with ⟨x | h, v⟩
    · rw [MayThrow.execStmts_lookup_throws env c cs s x v hl]
      exact ⟨⟨0, by simp⟩, fun hok => by simp at hok⟩
    · rcases he : env.entry c.symbol h v with ⟨x | a, u⟩
      · rw [MayThrow.execStmts_entry_throws env c cs s h v x u hl he]
        exact ⟨⟨2, by simp [shapeOf, Event.erase]⟩, fun hok => by simp at hok⟩
      · rw [MayThrow.execStmts_returns env c cs s h v a u hl he]
        obtain ⟨⟨k, hk⟩, hfull⟩ := ih
          { world := u, trace := s.trace ++ [Event.lookup c.name h, Event.register c.symbol h] }
        refine ⟨⟨k + 2, ?_⟩, fun hok => ?_⟩
        · rw [hk]
          simp [shapeOf, Event.erase]
        · rw [hfull hok]
          simp [shapeOf, Event.erase]

theorem MayThrow.execStmts_ofReturning {H W : Type} (env : PluginRegistrant.Env H W)
    (cs : List Stmt) (s : Run H W) :
    MayThrow.execStmts (MayThrow.ofReturning env) cs s =
      (Except.ok (), (PluginRegistrant.execStmts env cs s).2) := by
  induction cs generalizing s with
  | nil => rfl
  | cons c cs ih =>
    rw [MayThrow.execStmts_returns (MayThrow.ofReturning env) c cs s (env.lookup c.name s.world).1
      (env.lookup c.name s.world).2 () (env.entry c.symbol (env.lookup c.name s.world).1
        (env.lookup c.name s.world).2) rfl rfl, ih]
    simp [execStmts_run, eventsFrom, runWorld]

/-- Whatever the external calls do, the calls made by `RegisterPlugins` are an initial
segment of the same fixed sequence, and the whole sequence when it returns. -/
theorem MayThrow.traceOf_initial_segment {H W : Type} (env : MayThrow.Env H W) (w : W) :
    (∃ k, (MayThrow.traceOf env w).map Event.erase = (shapeOf statements).take k) ∧
      (MayThrow.resultOf env w = Except.ok () →
        (MayThrow.traceOf env w).map Event.erase = shapeOf statements) := by
  have h := MayThrow.execStmts_shape env statements { world := w, trace := [] }
  rw [MayThrow.resultOf, MayThrow.traceOf, MayThrow.RegisterPlugins_eq_statements]
  simpa using h

/-- On an environment whose calls all return, the two models agree. -/
theorem MayThrow.traceOf_ofReturning {H W : Type} (env : PluginRegistrant.Env H W) (w : W) :
    MayThrow.traceOf (MayThrow.ofReturning env) w = PluginRegistrant.traceOf env w ∧
      MayThrow.resultOf (MayThrow.ofReturning env) w = Except.ok () := by
  constructor
  · simp only [MayThrow.traceOf, MayThrow.RegisterPlugins_eq_statements,
      MayThrow.execStmts_ofReturning, PluginRegistrant.traceOf,
      PluginRegistrant.RegisterPlugins_eq_execStmts]
  · simp only [MayThrow.resultOf, MayThrow.RegisterPlugins_eq_statements,
      MayThrow.execStmts_ofReturning]

/-! ## Properties of `RegisterPlugins` -/

/-- C1: for every environment and starting host state, and for every plugin `P` of the
manifest, the trace of one `RegisterPlugins` call contains exactly one register event
for the entry point of `P` and exactly one lookup event whose name is `P`; the trace
has exactly 8 lookup events, 8 register events and 16 events in total, and every event
is a lookup of a manifest name or a call of a manifest plugin's entry point. -/
theorem C1_trace_counts {H W : Type} (env : Env H W) (w : W) :
    (∀ P ∈ specManifest,
        List.countP (Event.isRegisterOf (entryPointOf P)) (traceOf env w) = 1 ∧
          List.countP (Event.isLookupOf P) (traceOf env w) = 1) ∧
      List.countP Event.isLookup (traceOf env w) = 8 ∧
      List.countP Event.isRegister (traceOf env w) = 8 ∧
      (traceOf env w).length = 16 ∧
      ∀ e ∈ traceOf env w, ∃ P ∈ specManifest, ∃ h,
        e = Event.lookup P h ∨ e = Event.register (entryPointOf P) h := by
  refine ⟨?_, ?_, ?_, ?_, ?_⟩
  · intro P hP
    rw [countP_erase (Event.isRegisterOf (entryPointOf P)) (Event.isRegisterOf (entryPointOf P))
        (fun e => by cases e <;> rfl),
      countP_erase (Event.isLookupOf P) (Event.isLookupOf P) (fun e => by cases e <;> rfl),
      traceOf_erase]
    revert P
    decide
  · rw [countP_erase Event.isLookup Event.isLookup (fun e => by cases e <;> rfl), traceOf_erase]
    decide
  · rw [countP_erase Event.isRegister Event.isRegister (fun e => by cases e <;> rfl),
      traceOf_erase]
    decide
  · have h := congrArg List.length (traceOf_erase env w)
    rw [List.length_map] at h
    rw [h]
    decide
  · intro e he
    obtain ⟨c, hc, h, hh⟩ := traceOf_mem env w e he
    obtain ⟨hm, hs⟩ := statements_manifest c hc
    exact ⟨c.name, hm, h, by rw [← hs]; exact hh⟩

/-- Witness for C1 at the sample environment and the plugin `FileSelectorWindows`. -/
theorem C1_trace_counts_witness :
    "FileSelectorWindows" ∈ specManifest ∧
      List.countP (Event.isRegisterOf (entryPointOf "FileSelectorWindows"))
          (traceOf sampleEnv 0) = 1 ∧
      List.countP (Event.isLookupOf "FileSelectorWindows") (traceOf sampleEnv 0) = 1 :=
  ⟨by decide, (C1_trace_counts sampleEnv 0).1 "FileSelectorWindows" (by decide)⟩

/-- C2: for every environment and every plugin `P` of the manifest there is one handle
`h` such that the lookup made with the name `P` returned `h`, the entry point of `P` was
called with `h`, and no other handle occurs in a lookup of `P` or in a call of the entry
point of `P`.  When the registry answers as a function `g` of the name, the whole trace
is determined: the lookup of `P` returns `g P` and the entry point of `P` receives
`g P`. -/
theorem C2_handle_passed {H W : Type} (env : Env H W) (w : W) :
    (∀ P ∈ specManifest, ∃ h : H,
        Event.lookup P h ∈ traceOf env w ∧
          Event.register (entryPointOf P) h ∈ traceOf env w ∧
          (∀ k, Event.lookup P k ∈ traceOf env w → k = h) ∧
          (∀ k, Event.register (entryPointOf P) k ∈ traceOf env w → k = h)) ∧
      ∀ g : String → H, (∀ n v, (env.lookup n v).1 = g n) →
        traceOf env w =
          specManifest.flatMap fun P =>
            [Event.lookup P (g P), Event.register (entryPointOf P) (g P)] := by
  constructor
  · obtain ⟨h1, h2, h3, h4, h5, h6, h7, h8, h⟩ := traceOf_explicit env w
    rw [h]
    intro P hP
    simp only [specManifest, List.mem_cons, List.mem_singleton, List.mem_nil_iff, or_false] at hP
    rcases hP with rfl | rfl | rfl | rfl | rfl | rfl | rfl | rfl
    · exact ⟨h1, by simp, by simp [entryPointOf], by simp, by simp [entryPointOf]⟩
    · exact ⟨h2, by simp, by simp [entryPointOf], by simp, by simp [entryPointOf]⟩
    · exact ⟨h3, by simp, by simp [entryPointOf], by simp, by simp [entryPointOf]⟩
    · exact ⟨h4, by simp, by simp [entryPointOf], by simp, by simp [entryPointOf]⟩
    · exact ⟨h5, by simp, by simp [entryPointOf], by simp, by simp [entryPointOf]⟩
    · exact ⟨h6, by simp, by simp [entryPointOf], by simp, by simp [entryPointOf]⟩
    · exact ⟨h7, by simp, by simp [entryPointOf], by simp, by simp [entryPointOf]⟩
    · exact ⟨h8, by simp, by simp [entryPointOf], by simp, by simp [entryPointOf]⟩
  · intro g hg
    rw [traceOf_eq, eventsFrom_of_fun env g hg]
    rfl

/-- Witness for C2 at the sample environment whose registry returns the length of the
name, and the plugin `FirebaseAuthPluginCApi`. -/
theorem C2_handle_passed_witness :
    "FirebaseAuthPluginCApi" ∈ specManifest ∧
      (∀ n v, (sampleFunEnv.lookup n v).1 = String.length n) ∧
      (∃ h : Nat, Event.lookup "FirebaseAuthPluginCApi" h ∈ traceOf sampleFunEnv 0 ∧
        Event.register (entryPointOf "FirebaseAuthPluginCApi") h ∈ traceOf sampleFunEnv 0 ∧
        (∀ k, Event.lookup "FirebaseAuthPluginCApi" k ∈ traceOf sampleFunEnv 0 → k = h) ∧
        (∀ k, Event.register (entryPointOf "FirebaseAuthPluginCApi") k ∈ traceOf sampleFunEnv 0 →
          k = h)) ∧
      traceOf sampleFunEnv 0 =
        specManifest.flatMap fun P =>
          [Event.lookup P (String.length P), Event.register (entryPointOf P) (String.length P)] :=
  ⟨by decide, fun _ _ => rfl,
    (C2_handle_passed sampleFunEnv 0).1 "FirebaseAuthPluginCApi" (by decide),
    (C2_handle_passed sampleFunEnv 0).2 String.length (fun _ _ => rfl)⟩

/-- C3: the plugins registered by `RegisterPlugins` do not depend on the environment or
the host state; they are exactly the plugins assigned to the eight capabilities the
specification enumerates, one per capability: eight names, pairwise distinct, none
missing and none outside the assignment, and the entry points called are exactly the
entry points of those plugins. -/
theorem C3_fixed_plugin_set {H W : Type} (env : Env H W) (w : W) :
    lookupNames (traceOf env w) = SpecCapability.all.map SpecCapability.plugin ∧
      registerSymbols (traceOf env w) =
        SpecCapability.all.map (fun c => entryPointOf c.plugin) ∧
      (∀ c : SpecCapability, c ∈ SpecCapability.all) ∧
      SpecCapability.all.Nodup ∧
      Function.Injective SpecCapability.plugin ∧
      (lookupNames (traceOf env w)).length = 8 ∧
      (lookupNames (traceOf env w)).Nodup ∧
      ∀ P, P ∈ lookupNames (traceOf env w) ↔ ∃ c, SpecCapability.plugin c = P := by
  have hn : lookupNames (traceOf env w) = SpecCapability.all.map SpecCapability.plugin := by
    rw [lookupNames_traceOf]
    decide
  have hall : ∀ c : SpecCapability, c ∈ SpecCapability.all := by
    intro c
    cases c <;> decide
  refine ⟨hn, ?_, hall, by decide, ?_, ?_, ?_, ?_⟩
  · rw [registerSymbols_traceOf]
    decide
  · intro a b hab
    cases a <;> cases b <;> first | rfl | exact absurd hab (by decide)
  · rw [hn]
    decide
  · rw [hn]
    decide
  · intro P
    rw [hn, List.mem_map]
    constructor
    · rintro ⟨c, _, hc⟩
      exact ⟨c, hc⟩
    · rintro ⟨c, hc⟩
      exact ⟨c, hall c, hc⟩

/-- C5: for every environment, starting host state and `i` in 0..7, event `2i` of the
trace is the lookup of the `i`-th manifest name, returning the handle the registry gives
in the host state left by the first `i` statements, and event `2i+1` is the call of the
`i`-th plugin's entry point with that same handle.  Consequently, when the `i`-th lookup
is made every earlier plugin's registration has already been invoked, and when the
`i`-th registration has been invoked no later plugin has been looked up yet. -/
theorem C5_alternating {H W : Type} (env : Env H W) (w : W) (i : Nat) (hi : i < 8) :
    ∃ P : String, specManifest[i]? = some P ∧
      (traceOf env w)[2 * i]? =
        some (Event.lookup P (env.lookup P (worldBefore env w i)).1) ∧
      (traceOf env w)[2 * i + 1]? =
        some (Event.register (entryPointOf P) (env.lookup P (worldBefore env w i)).1) ∧
      (∀ j, j < i → ∃ Q h, specManifest[j]? = some Q ∧
        Event.register (entryPointOf Q) h ∈ (traceOf env w).take (2 * i)) ∧
      (∀ j, i < j → ∀ Q h, specManifest[j]? = some Q →
        Event.lookup Q h ∉ (traceOf env w).take (2 * i + 2)) := by
  have hidx : ∀ k, k < 8 → ∃ c, statements[k]? = some c ∧ specManifest[k]? = some c.name ∧
      c.symbol = entryPointOf c.name := by decide
  obtain ⟨c, hc, hP, hsym⟩ := hidx i hi
  have hev := eventsFrom_index env statements w i c hc
  refine ⟨c.name, hP, ?_, ?_, ?_, ?_⟩
  · rw [traceOf_eq]
    exact hev.1
  · rw [traceOf_eq, ← hsym]
    exact hev.2
  · intro j hj
    obtain ⟨d, hd, hQ, hdsym⟩ := hidx j (by omega)
    have hjd := (eventsFrom_index env statements w j d hd).2
    refine ⟨d.name, (env.lookup d.name (runWorld env (List.take j statements) w)).1, hQ, ?_⟩
    rw [← hdsym, traceOf_eq]
    apply List.mem_iff_getElem?.mpr
    refine ⟨2 * j + 1, ?_⟩
    rw [List.getElem?_take_of_lt (by omega)]
    exact hjd
  · intro j hj Q h hQ hmem
    obtain ⟨h1, h2, h3, h4, h5, h6, h7, h8, hexp⟩ := traceOf_explicit env w
    rw [hexp] at hmem
    have hj8 : j < 8 := by
      by_contra hge
      have hlen : specManifest.length ≤ j := by
        simp only [specManifest, List.length_cons, List.length_nil]
        omega
      rw [List.getElem?_eq_none hlen] at hQ
      exact Option.noConfusion hQ
    interval_cases i <;> interval_cases j <;>
      simp [specManifest] at hQ <;> subst hQ <;> simp at hmem

/-- Witness for C5 at the sample environment and `i = 3`. -/
theorem C5_alternating_witness :
    3 < 8 ∧ ∃ P : String, specManifest[3]? = some P ∧
      (traceOf sampleEnv 0)[2 * 3]? =
        some (Event.lookup P (sampleEnv.lookup P (worldBefore sampleEnv 0 3)).1) ∧
      (traceOf sampleEnv 0)[2 * 3 + 1]? =
        some (Event.register (entryPointOf P) (sampleEnv.lookup P (worldBefore sampleEnv 0 3)).1) ∧
      (∀ j, j < 3 → ∃ Q h, specManifest[j]? = some Q ∧
        Event.register (entryPointOf Q) h ∈ (traceOf sampleEnv 0).take (2 * 3)) ∧
      (∀ j, 3 < j → ∀ Q h, specManifest[j]? = some Q →
        Event.lookup Q h ∉ (traceOf sampleEnv 0).take (2 * 3 + 2)) :=
  ⟨by decide, C5_alternating sampleEnv 0 3 (by decide)⟩

/-- C6: for every environment the names passed to `GetRegistrarForPlugin`, in call
order, are the eight listed names, each strictly smaller in byte-wise lexicographic
order than every name looked up after it; hence they are pairwise distinct and no name
is looked up twice. -/
theorem C6_names_increasing {H W : Type} (env : Env H W) (w : W) :
    lookupNames (traceOf env w) =
        [ "BatteryPlusWindowsPlugin", "CloudFirestorePluginCApi", "FileSelectorWindows",
          "FirebaseAuthPluginCApi", "FirebaseCorePluginCApi", "FirebaseStoragePluginCApi",
          "FlutterSecureStorageWindowsPlugin", "PermissionHandlerWindowsPlugin" ] ∧
      List.Pairwise (fun a b => strLt a b = true) (lookupNames (traceOf env w)) ∧
      (lookupNames (traceOf env w)).Nodup ∧
      ∀ P, List.count P (lookupNames (traceOf env w)) ≤ 1 := by
  have hn : lookupNames (traceOf env w) = statements.map Stmt.name := lookupNames_traceOf env w
  have hnd : (statements.map Stmt.name).Nodup := by decide
  refine ⟨?_, ?_, ?_, ?_⟩
  · rw [hn]
    decide
  · rw [hn]
    decide
  · rw [hn]
    exact hnd
  · intro P
    rw [hn]
    exact List.nodup_iff_count_le_one.mp hnd P

/-- C7: for every environment and each of the eight calls (`i` in 0..7), the symbol of
the entry point invoked is the name passed to `GetRegistrarForPlugin` in that same call
followed by `RegisterWithRegistrar`, and it is not the symbol formed in that way from
any different name. -/
theorem C7_entry_point_symbol {H W : Type} (env : Env H W) (w : W) (i : Nat) (hi : i < 8) :
    ∃ (name : String) (h : H),
      (traceOf env w)[2 * i]? = some (Event.lookup name h) ∧
      (traceOf env w)[2 * i + 1]? =
        some (Event.register (name ++ "RegisterWithRegistrar") h) ∧
      ∀ (other : String) (k : H), other ≠ name →
        (traceOf env w)[2 * i + 1]? ≠
          some (Event.register (other ++ "RegisterWithRegistrar") k) := by
  have hidx : ∀ k, k < 8 → ∃ c, statements[k]? = some c ∧
      c.symbol = c.name ++ "RegisterWithRegistrar" := by decide
  obtain ⟨c, hc, hsym⟩ := hidx i hi
  have hev := eventsFrom_index env statements w i c hc
  rw [← traceOf_eq, hsym] at hev
  refine ⟨c.name, _, hev.1, hev.2, ?_⟩
  intro other k hne heq
  rw [hev.2] at heq
  simp only [Option.some.injEq, Event.register.injEq] at heq
  exact hne (append_right_cancel _ _ _ heq.1).symm

/-- Witness for C7 at the sample environment and `i = 2`. -/
theorem C7_entry_point_symbol_witness :
    2 < 8 ∧ ∃ (name : String) (h : Nat),
      (traceOf sampleEnv 0)[2 * 2]? = some (Event.lookup name h) ∧
      (traceOf sampleEnv 0)[2 * 2 + 1]? =
        some (Event.register (name ++ "RegisterWithRegistrar") h) ∧
      ∀ (other : String) (k : Nat), other ≠ name →
        (traceOf sampleEnv 0)[2 * 2 + 1]? ≠
          some (Event.register (other ++ "RegisterWithRegistrar") k) :=
  ⟨by decide, C7_entry_point_symbol sampleEnv 0 2 (by decide)⟩

end PluginRegistrant
